import Mathlib

/-!
Verification of the YomiGo text-extraction-and-annotation pipeline and of the
browser-extension client code.

Part A embeds the backend pipeline (tokenizer, dictionary resolver, HTTP
orchestrator).  The backend is absent from the repository tree (the README and
CLAUDE.md declare it, the extension calls it), so those definitions are
modelled from the specification, as marked in their doc comments.

Part B embeds the extension client code that is present in the repository:
the popup component with OCR + parse requests, the OCR-only popup component
in extension/src/App.tsx, the API service module that declares API_BASE, and
the stub content/background scripts.

Text is modelled as List Char (for the backend pipeline) or String (for the
client); image bytes as List Nat.
-/

namespace YomiGo

/-- Modelled from the spec: part-of-speech tags carried by tokens and
dictionary entries (spec section 3 leaves the enum open; this lists the
categories the spec mentions plus an unknown tag for opaque runs). -/
inductive PartOfSpeech where
  | noun
  | verb
  | adjective
  | particle
  | unknownPos
deriving DecidableEq, Repr

/-- Modelled from the spec: the Token record of spec section 3, absent from
the backend (which does not exist in the tree).  Fields: surface (exact
substring of the input), dictionaryForm (lemma used for lookup), reading,
partOfSpeech, isPhrase, sourceLineIndex. -/
structure Token where
  surface : List Char
  dictionaryForm : List Char
  reading : List Char
  partOfSpeech : PartOfSpeech
  isPhrase : Bool
  sourceLineIndex : Nat
deriving DecidableEq, Repr

/-- Modelled from the spec: a dictionary entry (spec section 3), keyed by
headword, with ranked definitions and a frequency rank. -/
structure DictionaryEntry where
  headword : List Char
  reading : List Char
  partOfSpeech : PartOfSpeech
  definitions : List (List Char)
  freq : Nat
deriving DecidableEq, Repr

/-- Modelled from the spec: the process-wide read-only lexicon: a word
lexicon, a phrase lexicon (multi-token idiomatic expressions), lemma /
reading / part-of-speech annotation maps, and the dictionary entries. -/
structure Lexicon where
  words : List (List Char)
  phrases : List (List Char)
  lemmaOf : List Char → List Char
  readingOf : List Char → List Char
  posOf : List Char → PartOfSpeech
  entries : List DictionaryEntry

/-- A candidate lexicon entry is usable at the current position when it is
nonempty and matches the start of the remaining text verbatim. -/
def goodCand (text c : List Char) : Bool :=
  !c.isEmpty && c.isPrefixOf text

/-- Compare one candidate against the best so far: a usable candidate
replaces the best so far only when strictly longer (longest match wins;
ties keep the best so far, a fixed deterministic order). -/
def better (text c : List Char) : Option (List Char) → Option (List Char)
  | none => if goodCand text c then some c else none
  | some b => if goodCand text c && decide (b.length < c.length) then some c else some b

/-- Modelled from the spec: longest-match selection among the lexicon
candidates that match the start of the remaining text. -/
def bestMatch : List (List Char) → List Char → Option (List Char)
  | [], _ => none
  | c :: rest, text => better text c (bestMatch rest text)

/-- The kind of match the tokenizer made at the current position. -/
inductive TokKind where
  | phrase
  | word
  | unknown
deriving DecidableEq, Repr

/-- Modelled from the spec: one segmentation step.  Phrase-lexicon matches
take priority over word matches; if neither lexicon matches, one character
becomes an opaque unknown token. -/
def nextMatch (lex : Lexicon) (text : List Char) : List Char × TokKind :=
  match bestMatch lex.phrases text with
  | some p => (p, TokKind.phrase)
  | none =>
      match bestMatch lex.words text with
      | some w => (w, TokKind.word)
      | none => (text.take 1, TokKind.unknown)

/-- Modelled from the spec: build a token from a matched surface.  Unknown
runs get no dictionary form and no reading; known matches are annotated
through the lexicon maps. -/
def mkToken (lex : Lexicon) (idx : Nat) (s : List Char) (k : TokKind) : Token :=
  { surface := s
    dictionaryForm := match k with
      | TokKind.unknown => []
      | _ => lex.lemmaOf s
    reading := match k with
      | TokKind.unknown => []
      | _ => lex.readingOf s
    partOfSpeech := match k with
      | TokKind.unknown => PartOfSpeech.unknownPos
      | _ => lex.posOf s
    isPhrase := match k with
      | TokKind.phrase => true
      | _ => false
    sourceLineIndex := idx }

/-- Modelled from the spec: fuel-indexed segmentation loop over one line.
Each step consumes the matched surface from the front of the text. -/
def tokenizeAux (lex : Lexicon) (idx : Nat) : Nat → List Char → List Token
  | 0, _ => []
  | _ + 1, [] => []
  | fuel + 1, c :: cs =>
      mkToken lex idx (nextMatch lex (c :: cs)).1 (nextMatch lex (c :: cs)).2 ::
        tokenizeAux lex idx fuel ((c :: cs).drop (nextMatch lex (c :: cs)).1.length)

/-- Modelled from the spec: tokenize one recognized line; the fuel equals the
line length, enough because every step consumes at least one character. -/
def tokenizeLine (lex : Lexicon) (idx : Nat) (line : List Char) : List Token :=
  tokenizeAux lex idx line.length line

/-- Modelled from the spec: tokenize the recognized lines in order, stamping
each token with the index of the line it came from. -/
def tokenizeFrom (lex : Lexicon) (i : Nat) : List (List Char) → List Token
  | [] => []
  | line :: rest => tokenizeLine lex i line ++ tokenizeFrom lex (i + 1) rest

/-- Modelled from the spec: the tokenizer entry point over the OCR output
(an ordered list of recognized lines). -/
def tokenizeText (lex : Lexicon) (lines : List (List Char)) : List Token :=
  tokenizeFrom lex 0 lines

end YomiGo

namespace YomiGo

theorem goodCand_nonempty {text c : List Char} (h : goodCand text c = true) : c ≠ [] := by
  intro hc
  subst hc
  simp [goodCand] at h

theorem goodCand_isPrefixOf {text c : List Char} (h : goodCand text c = true) :
    c.isPrefixOf text = true := by
  unfold goodCand at h
  exact (Bool.and_eq_true .. |>.mp h).2

theorem better_spec {text c : List Char} {o : Option (List Char)} {p : List Char}
    (h : better text c o = some p) :
    (p = c ∧ goodCand text c = true) ∨ o = some p := by
  cases o with
  | none =>
      simp only [better] at h
      by_cases hg : goodCand text c = true
      · rw [if_pos hg] at h
        cases h
        exact Or.inl ⟨rfl, hg⟩
      · rw [if_neg hg] at h
        cases h
  | some b =>
      simp only [better] at h
      by_cases hcond : (goodCand text c && decide (b.length < c.length)) = true
      · rw [if_pos hcond] at h
        cases h
        exact Or.inl ⟨rfl, (Bool.and_eq_true .. |>.mp hcond).1⟩
      · rw [if_neg hcond] at h
        exact Or.inr h

theorem better_isSome (text c : List Char) (o : Option (List Char))
    (h : goodCand text c = true ∨ o.isSome = true) :
    (better text c o).isSome = true := by
  cases o with
  | none =>
      rcases h with h | h
      · simp only [better]
        rw [if_pos h]
        rfl
      · cases h
  | some b =>
      simp only [better]
      by_cases hcond : (goodCand text c && decide (b.length < c.length)) = true
      · rw [if_pos hcond]; rfl
      · rw [if_neg hcond]; rfl

theorem bestMatch_spec :
    ∀ (cands : List (List Char)) (text p : List Char),
      bestMatch cands text = some p → p ∈ cands ∧ goodCand text p = true := by
  intro cands
  induction cands with
  | nil => intro text p h; cases h
  | cons c rest ih =>
      intro text p h
      rcases better_spec h with ⟨rfl, hg⟩ | hrec
      · exact ⟨List.mem_cons_self _ _, hg⟩
      · obtain ⟨hmem, hgood⟩ := ih text p hrec
        exact ⟨List.mem_cons_of_mem _ hmem, hgood⟩

theorem bestMatch_isSome :
    ∀ (cands : List (List Char)) (text c : List Char),
      c ∈ cands → goodCand text c = true → (bestMatch cands text).isSome = true := by
  intro cands
  induction cands with
  | nil => intro text c hc; cases hc
  | cons a rest ih =>
      intro text c hc hg
      rcases List.mem_cons.mp hc with h | h
      · subst h
        exact better_isSome text c _ (Or.inl hg)
      · exact better_isSome text a _ (Or.inr (ih text c h hg))

theorem isPrefixOf_append_drop :
    ∀ (l t : List Char), l.isPrefixOf t = true → l ++ t.drop l.length = t := by
  intro l
  induction l with
  | nil => intro t _; simp
  | cons a l ih =>
      intro t h
      cases t with
      | nil => simp [List.isPrefixOf] at h
      | cons b t =>
          simp only [List.isPrefixOf, Bool.and_eq_true, beq_iff_eq] at h
          obtain ⟨rfl, h2⟩ := h
          simp only [List.length_cons, List.drop_succ_cons, List.cons_append,
            List.cons.injEq, true_and]
          exact ih t h2

theorem nextMatch_nonempty (lex : Lexicon) (c : Char) (cs : List Char) :
    (nextMatch lex (c :: cs)).1 ≠ [] := by
  unfold nextMatch
  cases hp : bestMatch lex.phrases (c :: cs) with
  | some p => exact goodCand_nonempty (bestMatch_spec _ _ _ hp).2
  | none =>
      cases hw : bestMatch lex.words (c :: cs) with
      | some w => exact goodCand_nonempty (bestMatch_spec _ _ _ hw).2
      | none => simp

theorem nextMatch_isPrefixOf (lex : Lexicon) (c : Char) (cs : List Char) :
    ((nextMatch lex (c :: cs)).1).isPrefixOf (c :: cs) = true := by
  unfold nextMatch
  cases hp : bestMatch lex.phrases (c :: cs) with
  | some p => exact goodCand_isPrefixOf (bestMatch_spec _ _ _ hp).2
  | none =>
      cases hw : bestMatch lex.words (c :: cs) with
      | some w => exact goodCand_isPrefixOf (bestMatch_spec _ _ _ hw).2
      | none => simp [List.isPrefixOf]

theorem tokenizeAux_flatten (lex : Lexicon) (idx : Nat) :
    ∀ (fuel : Nat) (text : List Char), text.length ≤ fuel →
      ((tokenizeAux lex idx fuel text).map Token.surface).flatten = text := by
  intro fuel
  induction fuel with
  | zero =>
      intro text h
      have : text = [] := List.eq_nil_of_length_eq_zero (Nat.le_zero.mp h)
      subst this
      rfl
  | succ fuel ih =>
      intro text h
      cases text with
      | nil => rfl
      | cons c cs =>
          simp only [tokenizeAux, List.map_cons, List.flatten_cons, mkToken]
          have hne := nextMatch_nonempty lex c cs
          have hpre := nextMatch_isPrefixOf lex c cs
          have hlen : ((c :: cs).drop (nextMatch lex (c :: cs)).1.length).length ≤ fuel := by
            have h1 : 1 ≤ (nextMatch lex (c :: cs)).1.length :=
              Nat.succ_le_of_lt (List.length_pos.mpr hne)
            have := List.length_drop ((nextMatch lex (c :: cs)).1.length) (c :: cs)
            rw [this]
            have hcs : (c :: cs).length ≤ fuel + 1 := h
            omega
          rw [ih _ hlen]
          exact isPrefixOf_append_drop _ _ hpre

theorem tokenizeLine_flatten (lex : Lexicon) (idx : Nat) (line : List Char) :
    ((tokenizeLine lex idx line).map Token.surface).flatten = line :=
  tokenizeAux_flatten lex idx line.length line (Nat.le_refl _)

theorem tokenizeFrom_flatten (lex : Lexicon) :
    ∀ (i : Nat) (lines : List (List Char)),
      ((tokenizeFrom lex i lines).map Token.surface).flatten = lines.flatten := by
  intro i lines
  induction lines generalizing i with
  | nil => rfl
  | cons line rest ih =>
      simp only [tokenizeFrom, List.map_append, List.flatten_append, List.flatten_cons]
      rw [tokenizeLine_flatten, ih]

/-- C1: concatenating the `surface` fields of the tokenizer's output tokens,
in order, exactly reconstructs the input text (the concatenation of the
recognized lines): the tokens partition the text with no gaps or overlaps
and in order. -/
theorem tokenizer_lossless_partition (lex : Lexicon) (lines : List (List Char)) :
    ((tokenizeText lex lines).map Token.surface).flatten = lines.flatten :=
  tokenizeFrom_flatten lex 0 lines

end YomiGo

namespace YomiGo

/-- Modelled from the spec: the lookup key for dictionary resolution is the
token's dictionary form, falling back to the surface when no dictionary form
was resolved upstream. -/
def lookupKey (tok : Token) : List Char :=
  if tok.dictionaryForm.isEmpty then tok.surface else tok.dictionaryForm

/-- Insert an entry into a list sorted by descending frequency rank. -/
def insertByFreq (e : DictionaryEntry) : List DictionaryEntry → List DictionaryEntry
  | [] => [e]
  | x :: xs => if x.freq < e.freq then e :: x :: xs else x :: insertByFreq e xs

/-- Sort dictionary entries by descending frequency rank (insertion sort). -/
def sortByFreq : List DictionaryEntry → List DictionaryEntry
  | [] => []
  | x :: xs => insertByFreq x (sortByFreq xs)

/-- Modelled from the spec: the ranked candidate entries for a lookup key:
entries whose part of speech matches exactly come first, then mismatched
ones; within each group, higher lexicon frequency first. -/
def rankedEntries (entries : List DictionaryEntry) (key : List Char)
    (pos : PartOfSpeech) : List DictionaryEntry :=
  sortByFreq ((entries.filter (fun e => decide (e.headword = key))).filter
      (fun e => decide (e.partOfSpeech = pos))) ++
    sortByFreq ((entries.filter (fun e => decide (e.headword = key))).filter
      (fun e => decide (e.partOfSpeech ≠ pos)))

/-- Modelled from the spec: per-token dictionary resolution: the ordered
definitions of the ranked entries for the token's lookup key; the empty
list (not an error) when no entry exists. -/
def resolveDefinitions (entries : List DictionaryEntry) (tok : Token) : List (List Char) :=
  ((rankedEntries entries (lookupKey tok) tok.partOfSpeech).map
    DictionaryEntry.definitions).flatten

/-- Modelled from the spec: a token together with its resolved, ranked
definition list (section 3, AnnotatedToken). -/
structure AnnotatedToken where
  token : Token
  definitions : List (List Char)
deriving DecidableEq, Repr

/-- Modelled from the spec: annotate one token with its definitions. -/
def annotate (entries : List DictionaryEntry) (tok : Token) : AnnotatedToken :=
  { token := tok, definitions := resolveDefinitions entries tok }

/-- Modelled from the spec: the response envelope of the parse operation:
the recognized text and the annotated token sequence. -/
structure ParseResponse where
  text : List Char
  tokens : List AnnotatedToken
deriving DecidableEq, Repr

/-- Modelled from the spec: the full text pipeline behind the parse
operation: tokenize the recognized lines, then annotate every token. -/
def parsePipeline (lex : Lexicon) (lines : List (List Char)) : ParseResponse :=
  { text := lines.flatten
    tokens := (tokenizeText lex lines).map (annotate lex.entries) }

/-- Modelled from the spec: the OCR engine adapter, a swappable capability
that recognizes an ordered list of text lines from image bytes. -/
structure OcrAdapter where
  recognize : List Nat → List (List Char)

/-- Modelled from the spec: the request body accepted by the parse endpoint:
either JSON with a text field, or a multipart image. -/
inductive ParseRequest where
  | jsonText (text : List Char)
  | multipartImage (bytes : List Nat)
deriving DecidableEq, Repr

/-- Modelled from the spec: the recognized lines a parse request yields:
JSON text is used as given (one line); a multipart image goes through the
OCR adapter. -/
def linesOf (o : OcrAdapter) : ParseRequest → List (List Char)
  | ParseRequest.jsonText t => [t]
  | ParseRequest.multipartImage b => o.recognize b

/-- Modelled from the spec: the parse endpoint handler: empty recognized
text is the UnanalyzableInput error (HTTP 422, no body); otherwise the
pipeline runs and the handler answers HTTP 200 with the response body. -/
def handleParse (lex : Lexicon) (o : OcrAdapter) (req : ParseRequest) :
    Nat × Option ParseResponse :=
  let lines := linesOf o req
  if lines.flatten.isEmpty then (422, none)
  else (200, some (parsePipeline lex lines))

end YomiGo

namespace YomiGo

theorem tokenizeAux_surface_nonempty (lex : Lexicon) (idx : Nat) :
    ∀ (fuel : Nat) (text : List Char) (tok : Token),
      tok ∈ tokenizeAux lex idx fuel text → tok.surface ≠ [] := by
  intro fuel
  induction fuel with
  | zero => intro text tok h; cases h
  | succ fuel ih =>
      intro text tok h
      cases text with
      | nil => cases h
      | cons c cs =>
          simp only [tokenizeAux] at h
          rcases List.mem_cons.mp h with h | h
          · subst h
            exact nextMatch_nonempty lex c cs
          · exact ih _ tok h

theorem tokenizeFrom_surface_nonempty (lex : Lexicon) :
    ∀ (i : Nat) (lines : List (List Char)) (tok : Token),
      tok ∈ tokenizeFrom lex i lines → tok.surface ≠ [] := by
  intro i lines
  induction lines generalizing i with
  | nil => intro tok h; cases h
  | cons line rest ih =>
      intro tok h
      simp only [tokenizeFrom, tokenizeLine] at h
      rcases List.mem_append.mp h with h | h
      · exact tokenizeAux_surface_nonempty lex i _ _ tok h
      · exact ih _ tok h

theorem tokenizeText_flatten_ne_nil (lex : Lexicon) (lines : List (List Char)) (tok : Token)
    (h : tok ∈ tokenizeText lex lines) : lines.flatten ≠ [] := by
  intro hnil
  have hsur := tokenizeFrom_surface_nonempty lex 0 lines tok h
  have hfl := tokenizeFrom_flatten lex 0 lines
  rw [hnil] at hfl
  have hmem : tok.surface ∈ (tokenizeFrom lex 0 lines).map Token.surface :=
    List.mem_map_of_mem _ h
  exact hsur ((List.flatten_eq_nil_iff.mp hfl) _ hmem)

theorem resolveDefinitions_eq_nil {entries : List DictionaryEntry} {tok : Token}
    (h : ∀ e ∈ entries, e.headword ≠ lookupKey tok) :
    resolveDefinitions entries tok = [] := by
  have hfil : entries.filter (fun e => decide (e.headword = lookupKey tok)) = [] := by
    apply List.filter_eq_nil_iff.mpr
    intro e he
    simpa using h e he
  unfold resolveDefinitions rankedEntries
  rw [hfil]
  rfl

end YomiGo

namespace YomiGo

/-- A small concrete lexicon used to instantiate the theorems: one word
whose lemma differs from its surface, one phrase, one dictionary entry. -/
def sampleLex : Lexicon :=
  { words := [['a', 'b']]
    phrases := [['b', 'c']]
    lemmaOf := fun s => if s = ['a', 'b'] then ['a'] else s
    readingOf := fun _ => []
    posOf := fun _ => PartOfSpeech.noun
    entries := [{ headword := ['a'], reading := [], partOfSpeech := PartOfSpeech.noun,
                  definitions := [['t', 'o']], freq := 1 }] }

/-- A concrete OCR adapter for instantiating the theorems: every image
recognizes to the single line "ab". -/
def sampleOcr : OcrAdapter :=
  { recognize := fun _ => [['a', 'b']] }

/-- C2: the parse pipeline is deterministic: two calls of the parse handler
with identical image bytes produce identical annotated token sequences (the
embedded pipeline is a pure function of the request, with no randomness in
its tie-breaks). -/
theorem parse_deterministic (lex : Lexicon) (o : OcrAdapter) (img1 img2 : List Nat)
    (h : img1 = img2) :
    (handleParse lex o (ParseRequest.multipartImage img1)).2.map ParseResponse.tokens =
      (handleParse lex o (ParseRequest.multipartImage img2)).2.map ParseResponse.tokens := by
  rw [h]

/-- C2 witness: the determinism theorem applied to the sample lexicon,
adapter and a concrete image byte list. -/
theorem parse_deterministic_witness :
    [0, 1] = ([0, 1] : List Nat) ∧
      (handleParse sampleLex sampleOcr (ParseRequest.multipartImage [0, 1])).2.map
          ParseResponse.tokens =
        (handleParse sampleLex sampleOcr (ParseRequest.multipartImage [0, 1])).2.map
          ParseResponse.tokens :=
  ⟨rfl, parse_deterministic sampleLex sampleOcr [0, 1] [0, 1] rfl⟩

/-- C3: a token whose lookup key has no entry in the lexicon is still
annotated and returned — with an empty definitions list — and the parse
request answers HTTP 200 (success), not an error. -/
theorem unresolved_token_empty_definitions (lex : Lexicon) (o : OcrAdapter)
    (req : ParseRequest) (tok : Token)
    (hmem : tok ∈ tokenizeText lex (linesOf o req))
    (hnone : ∀ e ∈ lex.entries, e.headword ≠ lookupKey tok) :
    (handleParse lex o req).1 = 200 ∧
      ∃ resp, (handleParse lex o req).2 = some resp ∧
        ({ token := tok, definitions := [] } : AnnotatedToken) ∈ resp.tokens := by
  have hne : (linesOf o req).flatten ≠ [] :=
    tokenizeText_flatten_ne_nil lex (linesOf o req) tok hmem
  have hnotemp : ¬((linesOf o req).flatten.isEmpty = true) := by
    simpa [List.isEmpty_iff] using hne
  constructor
  · unfold handleParse
    rw [if_neg hnotemp]
  · refine ⟨parsePipeline lex (linesOf o req), ?_, ?_⟩
    · unfold handleParse
      rw [if_neg hnotemp]
    · show ({ token := tok, definitions := [] } : AnnotatedToken) ∈
        (tokenizeText lex (linesOf o req)).map (annotate lex.entries)
      have : annotate lex.entries tok = { token := tok, definitions := [] } := by
        unfold annotate
        rw [resolveDefinitions_eq_nil hnone]
      rw [← this]
      exact List.mem_map_of_mem _ hmem

/-- C3 witness: in the sample lexicon the character "c" is tokenized as an
unknown token whose lookup key "c" has no dictionary entry; the theorem is
applied at the concrete request with text "abc". -/
theorem unresolved_token_empty_definitions_witness :
    (({ surface := ['c'], dictionaryForm := [], reading := [],
        partOfSpeech := PartOfSpeech.unknownPos, isPhrase := false,
        sourceLineIndex := 0 } : Token) ∈
        tokenizeText sampleLex (linesOf sampleOcr (ParseRequest.jsonText ['a', 'b', 'c']))) ∧
      (handleParse sampleLex sampleOcr (ParseRequest.jsonText ['a', 'b', 'c'])).1 = 200 ∧
      ∃ resp,
        (handleParse sampleLex sampleOcr (ParseRequest.jsonText ['a', 'b', 'c'])).2 =
            some resp ∧
          ({ token := { surface := ['c'], dictionaryForm := [], reading := [],
                        partOfSpeech := PartOfSpeech.unknownPos, isPhrase := false,
                        sourceLineIndex := 0 },
             definitions := [] } : AnnotatedToken) ∈ resp.tokens :=
  ⟨by decide,
    unresolved_token_empty_definitions sampleLex sampleOcr
      (ParseRequest.jsonText ['a', 'b', 'c'])
      { surface := ['c'], dictionaryForm := [], reading := [],
        partOfSpeech := PartOfSpeech.unknownPos, isPhrase := false, sourceLineIndex := 0 }
      (by decide) (by decide)⟩

end YomiGo

namespace YomiGo

/-- C4: every token of a successful parse response carries the six Token
fields (surface, dictionaryForm, reading, partOfSpeech, isPhrase,
sourceLineIndex — the fields of the `Token` structure this response is built
from), the `surface` fields concatenate, in order, exactly to the response
text (surface is the exact substring as it appeared in the input), and each
token's definition list is the dictionary resolution keyed by its
`dictionaryForm` (through `lookupKey`). -/
theorem parse_response_token_fields (lex : Lexicon) (o : OcrAdapter) (req : ParseRequest)
    (resp : ParseResponse) (h : (handleParse lex o req).2 = some resp) :
    ((resp.tokens.map (fun a => a.token.surface)).flatten = resp.text) ∧
      ∀ a ∈ resp.tokens,
        a.definitions =
          ((rankedEntries lex.entries (lookupKey a.token) a.token.partOfSpeech).map
            DictionaryEntry.definitions).flatten := by
  have hresp : resp = parsePipeline lex (linesOf o req) := by
    unfold handleParse at h
    by_cases hemp : ((linesOf o req).flatten.isEmpty = true)
    · rw [if_pos hemp] at h
      cases h
    · rw [if_neg hemp] at h
      exact (Option.some.injEq .. |>.mp h).symm
  subst hresp
  constructor
  · show ((((tokenizeText lex (linesOf o req)).map (annotate lex.entries)).map
        (fun a => a.token.surface)).flatten = (linesOf o req).flatten)
    rw [List.map_map]
    have : ((fun a => a.token.surface) ∘ annotate lex.entries) = Token.surface := by
      funext tok
      rfl
    rw [this]
    exact tokenizeFrom_flatten lex 0 (linesOf o req)
  · intro a ha
    obtain ⟨tok, _, rfl⟩ := List.mem_map.mp ha
    rfl

/-- C4 witness: the theorem applied at the concrete request with text "ab"
against the sample lexicon (whose lemma for "ab" is "a", showing the lookup
keyed by the dictionary form rather than the surface). -/
theorem parse_response_token_fields_witness :
    ((handleParse sampleLex sampleOcr (ParseRequest.jsonText ['a', 'b'])).2 =
        some (parsePipeline sampleLex [['a', 'b']])) ∧
      ((((parsePipeline sampleLex [['a', 'b']]).tokens.map
            (fun a => a.token.surface)).flatten = (parsePipeline sampleLex [['a', 'b']]).text) ∧
        ∀ a ∈ (parsePipeline sampleLex [['a', 'b']]).tokens,
          a.definitions =
            ((rankedEntries sampleLex.entries (lookupKey a.token) a.token.partOfSpeech).map
              DictionaryEntry.definitions).flatten) :=
  ⟨rfl,
    parse_response_token_fields sampleLex sampleOcr (ParseRequest.jsonText ['a', 'b'])
      (parsePipeline sampleLex [['a', 'b']]) rfl⟩

end YomiGo

namespace YomiGo


/-- Lexicon for the phrase-priority witness: the phrase lexicon contains
お疲れ様 and the word lexicon the single character お. -/
def jpLex : Lexicon :=
  { words := [['お']]
    phrases := [['お', '疲', 'れ', '様']]
    lemmaOf := fun s => s
    readingOf := fun _ => []
    posOf := fun _ => PartOfSpeech.noun
    entries := [] }

/-- C5 counterexample: the claim is false as a statement about every
contiguous occurrence.  In the sample lexicon the phrase lexicon contains
"bc" and the input "abc" contains "bc" contiguously, but the word "ab" is
matched first at position 0, so the phrase occurrence is consumed across two
non-phrase tokens and no token has `isPhrase = true`. -/
theorem phrase_merge_not_universal :
    (['b', 'c'] ∈ sampleLex.phrases) ∧
      (['a', 'b', 'c'] = ['a'] ++ ['b', 'c']) ∧
      ((tokenizeText sampleLex [['a', 'b', 'c']]).all (fun t => !t.isPhrase) = true) := by
  decide

/-- C5 (amended): whenever segmentation reaches a position where some
nonempty phrase-lexicon entry matches the start of the remaining text, the
tokenizer emits a phrase token there — a single token with
`isPhrase = true` whose surface is a phrase-lexicon entry — in priority
over any single-word longest match.  (Stated at the start of a line; every
later step of `tokenizeAux` has the same shape.) -/
theorem phrase_priority (lex : Lexicon) (idx : Nat) (text : List Char)
    (h : ∃ p, p ∈ lex.phrases ∧ p ≠ [] ∧ p.isPrefixOf text = true) :
    ∃ tok rest, tokenizeLine lex idx text = tok :: rest ∧ tok.isPhrase = true ∧
      tok.surface ∈ lex.phrases ∧ tok.surface.isPrefixOf text = true := by
  obtain ⟨p, hp, hne, hpre⟩ := h
  have hgood : goodCand text p = true := by
    unfold goodCand
    apply Bool.and_eq_true .. |>.mpr
    constructor
    · cases p with
      | nil => exact absurd rfl hne
      | cons a l => rfl
    · exact hpre
  obtain ⟨q, hq⟩ := Option.isSome_iff_exists.mp (bestMatch_isSome lex.phrases text p hp hgood)
  obtain ⟨hqmem, hqgood⟩ := bestMatch_spec lex.phrases text q hq
  cases text with
  | nil =>
      cases p with
      | nil => exact absurd rfl hne
      | cons a l => cases hpre
  | cons c cs =>
      refine ⟨mkToken lex idx q TokKind.phrase,
        tokenizeAux lex idx cs.length ((c :: cs).drop q.length), ?_, rfl,
        hqmem, goodCand_isPrefixOf hqgood⟩
      unfold tokenizeLine
      simp only [List.length_cons, tokenizeAux, nextMatch, hq]

/-- C5 witness: the scenario from the spec: with お疲れ様 in the phrase
lexicon (and お in the word lexicon), the input お疲れ様 is tokenized as
exactly one token with `isPhrase = true`, not as per-character tokens. -/
theorem phrase_priority_witness :
    (∃ p, p ∈ jpLex.phrases ∧ p ≠ [] ∧
        p.isPrefixOf ['お', '疲', 'れ', '様'] = true) ∧
      (∃ tok rest, tokenizeLine jpLex 0 ['お', '疲', 'れ', '様'] = tok :: rest ∧
        tok.isPhrase = true ∧ tok.surface ∈ jpLex.phrases ∧
        tok.surface.isPrefixOf ['お', '疲', 'れ', '様'] = true) ∧
      (tokenizeLine jpLex 0 ['お', '疲', 'れ', '様']).length = 1 :=
  ⟨⟨['お', '疲', 'れ', '様'], by decide, by decide, by decide⟩,
    phrase_priority jpLex 0 ['お', '疲', 'れ', '様']
      ⟨['お', '疲', 'れ', '様'], by decide, by decide, by decide⟩,
    by decide⟩

end YomiGo

namespace Extension

/-- A file selected in the file input; the client only forwards it verbatim,
so an opaque name is enough. -/
structure UploadFile where
  name : String
deriving DecidableEq, Repr

/-- The body of an HTTP request issued by the client: multipart form data
with one named file field (FormData.append), or JSON carrying one text
field (JSON.stringify of an object with a text property). -/
inductive HttpBody where
  | multipartField (field : String) (file : UploadFile)
  | jsonTextField (text : String)
deriving DecidableEq, Repr

/-- An HTTP request as issued by a fetch call in the client code. -/
structure HttpRequest where
  url : String
  method : String
  body : HttpBody
deriving DecidableEq, Repr

/-- From src/unnamed/part_000 (the API service module): the declared backend
base URL.  The module otherwise contains only comments and a TODO: no API
function is implemented there. -/
def API_BASE : String := "http://localhost:5000"

/-- The URL the upload handlers actually fetch for OCR (literal in both
App components). -/
def ocrUrl : String := "http://127.0.0.1:8000/ocr"

/-- The URL the popup's upload handler actually fetches for parsing
(literal in src/unnamed/part_002). -/
def parseUrl : String := "http://127.0.0.1:8000/parse"

/-- From src/extension/src/content.ts: the content script is comments and a
TODO only; it performs no requests. -/
def contentScriptRequests : List HttpRequest := []

/-- From src/unnamed/part_001 (the background service worker): comments and
a TODO only; it performs no requests. -/
def backgroundScriptRequests : List HttpRequest := []

/-- The Token interface declared by the popup component in
src/unnamed/part_002 (its field names, with is_phrase optional). -/
structure ClientToken where
  surface : String
  reading : String
  dictionary_form : String
  part_of_speech : String
  definitions : List String
  is_phrase : Option Bool
deriving DecidableEq, Repr

/-- The component state of the popup App in src/unnamed/part_002: the four
useState fields.  There is no error field of any kind. -/
structure AppState where
  selectedFile : Option UploadFile
  extractedText : String
  tokens : List ClientToken
  isLoading : Bool
deriving DecidableEq, Repr

/-- The JSON body the client reads from the /ocr response. -/
structure OcrResponseJson where
  text : String
deriving DecidableEq, Repr

/-- The JSON body the client reads from the /parse response. -/
structure ParseResponseJson where
  text : String
  tokens : List ClientToken
deriving DecidableEq, Repr

/-- handleUpload of the popup App in src/unnamed/part_002.  Each awaited
fetch-and-decode step is represented by its outcome; a rejected await makes
the JS exception propagate out of the async function, skipping every later
statement (there is no try/catch or finally).  The result is the final
component state together with the list of requests issued, in order. -/
def handleUpload (st : AppState) (ocrResult : Except Unit OcrResponseJson)
    (parseResult : Except Unit ParseResponseJson) : AppState × List HttpRequest :=
  match st.selectedFile with
  | none => (st, [])
  | some file =>
      match ocrResult with
      | Except.error _ =>
          ({ st with isLoading := true },
            [{ url := ocrUrl, method := "POST",
               body := HttpBody.multipartField "image" file }])
      | Except.ok ocrData =>
          match parseResult with
          | Except.error _ =>
              ({ st with isLoading := true, extractedText := ocrData.text },
                [{ url := ocrUrl, method := "POST",
                   body := HttpBody.multipartField "image" file },
                 { url := parseUrl, method := "POST",
                   body := HttpBody.jsonTextField ocrData.text }])
          | Except.ok parseData =>
              ({ st with
                  isLoading := false
                  extractedText := ocrData.text
                  tokens := parseData.tokens },
                [{ url := ocrUrl, method := "POST",
                   body := HttpBody.multipartField "image" file },
                 { url := parseUrl, method := "POST",
                   body := HttpBody.jsonTextField ocrData.text }])

/-- The component state of the OCR-only App in src/extension/src/App.tsx:
three useState fields, no tokens and no error field. -/
structure OcrAppState where
  selectedFile : Option UploadFile
  extractedText : String
  isLoading : Bool
deriving DecidableEq, Repr

/-- handleUpload of the OCR-only App in src/extension/src/App.tsx: one
fetch to the /ocr endpoint with the selected file as the multipart field
named image, then display of the text field of the JSON response. -/
def ocrAppHandleUpload (st : OcrAppState) (ocrResult : Except Unit OcrResponseJson) :
    OcrAppState × List HttpRequest :=
  match st.selectedFile with
  | none => (st, [])
  | some file =>
      match ocrResult with
      | Except.error _ =>
          ({ st with isLoading := true },
            [{ url := ocrUrl, method := "POST",
               body := HttpBody.multipartField "image" file }])
      | Except.ok data =>
          ({ st with isLoading := false, extractedText := data.text },
            [{ url := ocrUrl, method := "POST",
               body := HttpBody.multipartField "image" file }])

/-- The disabled attribute of the upload button in src/unnamed/part_002:
no file selected, or a request in flight. -/
def uploadButtonDisabled (st : AppState) : Bool :=
  st.selectedFile.isNone || st.isLoading

/-- The disabled attribute of the upload button in
src/extension/src/App.tsx. -/
def ocrUploadButtonDisabled (st : OcrAppState) : Bool :=
  st.selectedFile.isNone || st.isLoading

/-- The extracted-text section of the OCR-only App renders exactly when the
extractedText state is a nonempty (truthy) string, and then shows it. -/
def displayedText (st : OcrAppState) : Option String :=
  if st.extractedText.isEmpty then none else some st.extractedText

end Extension

namespace Extension

theorem handleUpload_request_urls (st : AppState) (o : Except Unit OcrResponseJson)
    (p : Except Unit ParseResponseJson) (req : HttpRequest)
    (h : req ∈ (handleUpload st o p).2) : req.url = ocrUrl ∨ req.url = parseUrl := by
  cases hf : st.selectedFile with
  | none =>
      simp only [handleUpload, hf] at h
      cases h
  | some file =>
      cases o with
      | error e =>
          simp only [handleUpload, hf] at h
          rw [List.mem_singleton] at h
          subst h
          exact Or.inl rfl
      | ok d =>
          cases p with
          | error e =>
              simp only [handleUpload, hf] at h
              rcases List.mem_cons.mp h with h | h
              · subst h; exact Or.inl rfl
              · rw [List.mem_singleton] at h; subst h; exact Or.inr rfl
          | ok pd =>
              simp only [handleUpload, hf] at h
              rcases List.mem_cons.mp h with h | h
              · subst h; exact Or.inl rfl
              · rw [List.mem_singleton] at h; subst h; exact Or.inr rfl

theorem ocrAppHandleUpload_request_urls (st : OcrAppState)
    (o : Except Unit OcrResponseJson) (req : HttpRequest)
    (h : req ∈ (ocrAppHandleUpload st o).2) : req.url = ocrUrl := by
  cases hf : st.selectedFile with
  | none =>
      simp only [ocrAppHandleUpload, hf] at h
      cases h
  | some file =>
      cases o with
      | error e =>
          simp only [ocrAppHandleUpload, hf] at h
          rw [List.mem_singleton] at h
          subst h
          rfl
      | ok d =>
          simp only [ocrAppHandleUpload, hf] at h
          rw [List.mem_singleton] at h
          subst h
          rfl

/-- C7: the upload form of src/extension/src/App.tsx sends the selected
file to the /ocr endpoint as the multipart form field named image, and
displays the text field of the JSON response (rendered when nonempty);
the content script, the background worker and the API service module
implement no behaviour, so this upload is the extension's only functional
behaviour. -/
theorem ocr_upload_form_behaviour (st : OcrAppState) (file : UploadFile)
    (d : OcrResponseJson) (hf : st.selectedFile = some file) :
    (ocrAppHandleUpload st (Except.ok d)).2 =
        [{ url := ocrUrl, method := "POST",
           body := HttpBody.multipartField "image" file }] ∧
      (ocrAppHandleUpload st (Except.ok d)).1.extractedText = d.text ∧
      (d.text.isEmpty = false →
        displayedText (ocrAppHandleUpload st (Except.ok d)).1 = some d.text) ∧
      contentScriptRequests = [] ∧ backgroundScriptRequests = [] := by
  refine ⟨?_, ?_, ?_, rfl, rfl⟩
  · simp only [ocrAppHandleUpload, hf]
  · simp only [ocrAppHandleUpload, hf]
  · intro hne
    simp only [ocrAppHandleUpload, hf]
    simp [displayedText, hne]

/-- C7 witness: the theorem applied at a concrete state with a selected
file and a concrete successful OCR response. -/
theorem ocr_upload_form_behaviour_witness :
    (({ selectedFile := some { name := "page.png" }, extractedText := "",
        isLoading := false } : OcrAppState).selectedFile = some { name := "page.png" }) ∧
      ((ocrAppHandleUpload
            { selectedFile := some { name := "page.png" }, extractedText := "",
              isLoading := false } (Except.ok { text := "hi" })).2 =
          [{ url := ocrUrl, method := "POST",
             body := HttpBody.multipartField "image" { name := "page.png" } }] ∧
        (ocrAppHandleUpload
            { selectedFile := some { name := "page.png" }, extractedText := "",
              isLoading := false } (Except.ok { text := "hi" })).1.extractedText = "hi" ∧
        (("hi" : String).isEmpty = false →
          displayedText (ocrAppHandleUpload
              { selectedFile := some { name := "page.png" }, extractedText := "",
                isLoading := false } (Except.ok { text := "hi" })).1 = some "hi") ∧
        contentScriptRequests = [] ∧ backgroundScriptRequests = []) :=
  ⟨rfl,
    ocr_upload_form_behaviour
      { selectedFile := some { name := "page.png" }, extractedText := "", isLoading := false }
      { name := "page.png" } { text := "hi" } rfl⟩

/-- C8: every request the upload handlers issue goes to a URL under the
base http://127.0.0.1:8000, never to a URL under the API_BASE declared in
the API service module; the two base URLs differ. -/
theorem api_base_never_requested (st : AppState) (st2 : OcrAppState)
    (o : Except Unit OcrResponseJson) (p : Except Unit ParseResponseJson)
    (o2 : Except Unit OcrResponseJson) (req : HttpRequest)
    (h : req ∈ (handleUpload st o p).2 ++ (ocrAppHandleUpload st2 o2).2) :
    ("http://127.0.0.1:8000".toList.isPrefixOf req.url.toList = true) ∧
      (API_BASE.toList.isPrefixOf req.url.toList = false) ∧
      ("http://127.0.0.1:8000" : String) ≠ API_BASE := by
  have hurl : req.url = ocrUrl ∨ req.url = parseUrl := by
    rcases List.mem_append.mp h with h | h
    · exact handleUpload_request_urls st o p req h
    · exact Or.inl (ocrAppHandleUpload_request_urls st2 o2 req h)
  rcases hurl with h1 | h1 <;> rw [h1] <;> exact ⟨by decide, by decide, by decide⟩

/-- C8 witness: the theorem applied to the OCR request issued from a state
with a selected file (the OCR fetch rejecting afterwards). -/
theorem api_base_never_requested_witness :
    (({ url := ocrUrl, method := "POST",
        body := HttpBody.multipartField "image" { name := "page.png" } } : HttpRequest) ∈
        (handleUpload
            { selectedFile := some { name := "page.png" }, extractedText := "",
              tokens := [], isLoading := false } (Except.error ()) (Except.error ())).2 ++
          (ocrAppHandleUpload
              { selectedFile := none, extractedText := "", isLoading := false }
              (Except.error ())).2) ∧
      (("http://127.0.0.1:8000".toList.isPrefixOf
          ({ url := ocrUrl, method := "POST",
             body := HttpBody.multipartField "image" { name := "page.png" } } :
            HttpRequest).url.toList = true) ∧
        (API_BASE.toList.isPrefixOf
          ({ url := ocrUrl, method := "POST",
             body := HttpBody.multipartField "image" { name := "page.png" } } :
            HttpRequest).url.toList = false) ∧
        ("http://127.0.0.1:8000" : String) ≠ API_BASE) :=
  ⟨by decide,
    api_base_never_requested
      { selectedFile := some { name := "page.png" }, extractedText := "",
        tokens := [], isLoading := false }
      { selectedFile := none, extractedText := "", isLoading := false }
      (Except.error ()) (Except.error ()) (Except.error ())
      { url := ocrUrl, method := "POST",
        body := HttpBody.multipartField "image" { name := "page.png" } }
      (by decide)⟩

end Extension

namespace Extension

/-- C9: when a file is selected and the OCR await or the parse await
rejects, handleUpload never reaches the final SetIsLoading(false) (there is
no try/finally or error branch), so the final state still has
isLoading = true and the upload button stays disabled; the component state
carries no error field (its only fields are selectedFile, extractedText,
tokens, isLoading), so no error is surfaced — tokens in particular stay
unchanged. -/
theorem failed_upload_keeps_loading (st : AppState) (file : UploadFile)
    (o : Except Unit OcrResponseJson) (p : Except Unit ParseResponseJson)
    (hf : st.selectedFile = some file)
    (hfail : o = Except.error () ∨ p = Except.error ()) :
    (handleUpload st o p).1.isLoading = true ∧
      (handleUpload st o p).1.tokens = st.tokens ∧
      uploadButtonDisabled (handleUpload st o p).1 = true := by
  have hload : (handleUpload st o p).1.isLoading = true ∧
      (handleUpload st o p).1.tokens = st.tokens := by
    rcases hfail with rfl | rfl
    · simp [handleUpload, hf]
    · cases o with
      | error e => simp [handleUpload, hf]
      | ok d => simp [handleUpload, hf]
  refine ⟨hload.1, hload.2, ?_⟩
  unfold uploadButtonDisabled
  rw [hload.1]
  simp

/-- C9 witness: the theorem applied at a concrete state with a selected
file and a rejecting OCR step. -/
theorem failed_upload_keeps_loading_witness :
    (({ selectedFile := some { name := "page.png" }, extractedText := "",
        tokens := [], isLoading := false } : AppState).selectedFile =
        some { name := "page.png" }) ∧
      ((Except.error () : Except Unit OcrResponseJson) = Except.error () ∨
        (Except.ok { text := "", tokens := [] } : Except Unit ParseResponseJson) =
          Except.error ()) ∧
      ((handleUpload
          { selectedFile := some { name := "page.png" }, extractedText := "",
            tokens := [], isLoading := false }
          (Except.error ()) (Except.ok { text := "", tokens := [] })).1.isLoading = true ∧
        (handleUpload
            { selectedFile := some { name := "page.png" }, extractedText := "",
              tokens := [], isLoading := false }
            (Except.error ()) (Except.ok { text := "", tokens := [] })).1.tokens = [] ∧
        uploadButtonDisabled
            (handleUpload
              { selectedFile := some { name := "page.png" }, extractedText := "",
                tokens := [], isLoading := false }
              (Except.error ()) (Except.ok { text := "", tokens := [] })).1 = true) :=
  ⟨rfl, Or.inl rfl,
    failed_upload_keeps_loading
      { selectedFile := some { name := "page.png" }, extractedText := "",
        tokens := [], isLoading := false }
      { name := "page.png" }
      (Except.error ()) (Except.ok { text := "", tokens := [] }) rfl (Or.inl rfl)⟩

/-- C10: when no file is selected, both upload handlers return immediately:
no request is issued and the component state is unchanged in every field;
and the upload button is disabled exactly when no file is selected or a
request is in flight. -/
theorem no_file_selected_frame (st : AppState) (st2 : OcrAppState)
    (o : Except Unit OcrResponseJson) (p : Except Unit ParseResponseJson)
    (o2 : Except Unit OcrResponseJson)
    (h : st.selectedFile = none) (h2 : st2.selectedFile = none) :
    handleUpload st o p = (st, []) ∧ ocrAppHandleUpload st2 o2 = (st2, []) ∧
      (∀ s : AppState, s.selectedFile = none ∨ s.isLoading = true →
        uploadButtonDisabled s = true) ∧
      (∀ s : OcrAppState, s.selectedFile = none ∨ s.isLoading = true →
        ocrUploadButtonDisabled s = true) := by
  refine ⟨?_, ?_, ?_, ?_⟩
  · simp only [handleUpload, h]
  · simp only [ocrAppHandleUpload, h2]
  · intro s hs
    unfold uploadButtonDisabled
    rcases hs with hs | hs
    · rw [hs]; rfl
    · rw [hs]; simp
  · intro s hs
    unfold ocrUploadButtonDisabled
    rcases hs with hs | hs
    · rw [hs]; rfl
    · rw [hs]; simp

/-- C10 witness: the theorem applied at concrete states with no selected
file. -/
theorem no_file_selected_frame_witness :
    (({ selectedFile := none, extractedText := "t", tokens := [],
        isLoading := false } : AppState).selectedFile = none) ∧
      (handleUpload
          { selectedFile := none, extractedText := "t", tokens := [], isLoading := false }
          (Except.error ()) (Except.error ()) =
        ({ selectedFile := none, extractedText := "t", tokens := [], isLoading := false },
          []) ∧
        ocrAppHandleUpload
            { selectedFile := none, extractedText := "", isLoading := false }
            (Except.error ()) =
          ({ selectedFile := none, extractedText := "", isLoading := false }, []) ∧
        (∀ s : AppState, s.selectedFile = none ∨ s.isLoading = true →
          uploadButtonDisabled s = true) ∧
        (∀ s : OcrAppState, s.selectedFile = none ∨ s.isLoading = true →
          ocrUploadButtonDisabled s = true)) :=
  ⟨rfl,
    no_file_selected_frame
      { selectedFile := none, extractedText := "t", tokens := [], isLoading := false }
      { selectedFile := none, extractedText := "", isLoading := false }
      (Except.error ()) (Except.error ()) (Except.error ()) rfl rfl⟩

end Extension

namespace Extension

/-- C6: the parse endpoint accepts either request shape — the handler is
defined on both JSON text and multipart image, answering 200 on nonempty
recognized text (and 422 only for the empty-input error) — while the only
implemented client exercises just the JSON shape: after a successful OCR
await the popup issues exactly the multipart OCR request followed by one
POST to the parse URL whose body is JSON carrying the text field of the
preceding OCR response — never an image. -/
theorem parse_accepts_either_client_sends_json (lex : YomiGo.Lexicon)
    (oa : YomiGo.OcrAdapter) (t : List Char) (bytes : List Nat)
    (st : AppState) (file : UploadFile) (d : OcrResponseJson)
    (p : Except Unit ParseResponseJson)
    (hf : st.selectedFile = some file) (ht : t ≠ []) :
    ((YomiGo.handleParse lex oa (YomiGo.ParseRequest.jsonText t)).1 = 200) ∧
      ((YomiGo.handleParse lex oa (YomiGo.ParseRequest.multipartImage bytes)).1 = 200 ∨
        (YomiGo.handleParse lex oa (YomiGo.ParseRequest.multipartImage bytes)).1 = 422) ∧
      ((handleUpload st (Except.ok d) p).2 =
        [{ url := ocrUrl, method := "POST",
           body := HttpBody.multipartField "image" file },
         { url := parseUrl, method := "POST",
           body := HttpBody.jsonTextField d.text }]) := by
  refine ⟨?_, ?_, ?_⟩
  · have hflat : (YomiGo.linesOf oa (YomiGo.ParseRequest.jsonText t)).flatten = t := by
      simp [YomiGo.linesOf]
    simp only [YomiGo.handleParse]
    rw [hflat, if_neg (by simpa [List.isEmpty_iff] using ht)]
  · by_cases hemp :
        ((YomiGo.linesOf oa (YomiGo.ParseRequest.multipartImage bytes)).flatten.isEmpty = true)
    · refine Or.inr ?_
      simp only [YomiGo.handleParse]
      rw [if_pos hemp]
    · refine Or.inl ?_
      simp only [YomiGo.handleParse]
      rw [if_neg hemp]
  · cases p with
    | error e => simp [handleUpload, hf]
    | ok pd => simp [handleUpload, hf]

/-- C6 witness: the theorem applied at the sample lexicon and adapter, the
concrete text "a", and a concrete client state with a selected file and OCR
response text "ab". -/
theorem parse_accepts_either_client_sends_json_witness :
    (({ selectedFile := some { name := "page.png" }, extractedText := "",
        tokens := [], isLoading := false } : AppState).selectedFile =
        some { name := "page.png" }) ∧
      (['a'] ≠ ([] : List Char)) ∧
      (((YomiGo.handleParse YomiGo.sampleLex YomiGo.sampleOcr
            (YomiGo.ParseRequest.jsonText ['a'])).1 = 200) ∧
        ((YomiGo.handleParse YomiGo.sampleLex YomiGo.sampleOcr
              (YomiGo.ParseRequest.multipartImage [])).1 = 200 ∨
          (YomiGo.handleParse YomiGo.sampleLex YomiGo.sampleOcr
              (YomiGo.ParseRequest.multipartImage [])).1 = 422) ∧
        ((handleUpload
            { selectedFile := some { name := "page.png" }, extractedText := "",
              tokens := [], isLoading := false }
            (Except.ok { text := "ab" }) (Except.error ())).2 =
          [{ url := ocrUrl, method := "POST",
             body := HttpBody.multipartField "image" { name := "page.png" } },
           { url := parseUrl, method := "POST",
             body := HttpBody.jsonTextField "ab" }])) :=
  ⟨rfl, by decide,
    parse_accepts_either_client_sends_json YomiGo.sampleLex YomiGo.sampleOcr ['a'] []
      { selectedFile := some { name := "page.png" }, extractedText := "",
        tokens := [], isLoading := false }
      { name := "page.png" } { text := "ab" } (Except.error ()) rfl (by decide)⟩

end Extension
